import Mathlib

/-!
# usb-toolbox: a shallow embedding of `usb-toolbox.cpp`

The program is an interactive shell: it reads a line, splits it on spaces,
matches the first token against a fixed table of commands and calls one
handler, which in turn makes a few calls into libusb or the kernel.

Modelling conventions.

* A `std::string` is the list of its characters (`List Char`), one `Char`
  per `char`; a `std::vector<unsigned char>` is a `List Nat` of byte values.
* Machine integers are natural numbers or integers with the wrap-around
  written out (`% 2 ^ 32` for `unsigned int`, `% 2 ^ 64` for `size_t` and
  `unsigned long`).  The platform is 64-bit Linux (LP64): `int` and
  `unsigned int` have 32 bits, `long`, `unsigned long` and `size_t` 64.
* An uninitialised local variable holds an arbitrary value, which the model
  takes as an argument.
* A loop is a function that recurses on a counter of loop tests (its fuel).
  Where the counter runs out the loop did not finish.
* Calls into libusb, the kernel and the C++ standard library are external to
  the repository.  The standard library calls are modelled after the C and
  C++ standards; the results of libusb and kernel calls are supplied by an
  environment record, one per command.
-/

namespace UsbToolbox

/-! ## Characters and numerals (C and C++ standard library) -/

/-- The double quote character, code 34. -/
def dquote : Char := Char.ofNat 34

/-- The C library `isspace` in the "C" locale: space, `\t`, `\n`, `\v`, `\f`, `\r`. -/
def isspace (c : Char) : Bool :=
  c.toNat = 32 || (9 ≤ c.toNat && c.toNat ≤ 13)

/-- Value of a character as a digit (`0-9`, `a-z`, `A-Z`), as `strtol` and
`num_get` read it. -/
def digit_value (c : Char) : Option Nat :=
  if 48 ≤ c.toNat ∧ c.toNat ≤ 57 then some (c.toNat - 48)
  else if 97 ≤ c.toNat ∧ c.toNat ≤ 122 then some (c.toNat - 87)
  else if 65 ≤ c.toNat ∧ c.toNat ≤ 90 then some (c.toNat - 55)
  else none

/-- The value of the longest run of base-`base` digits at the start of `s`,
starting from the accumulator `acc`. -/
def scan_digits (base : Nat) : List Char → Nat → Nat
  | [], acc => acc
  | c :: cs, acc =>
    match digit_value c with
    | some d => if d < base then scan_digits base cs (acc * base + d) else acc
    | none => acc

/-- An optional sign: whether it is a minus, and what follows it. -/
def scan_sign : List Char → Bool × List Char
  | c :: cs => if c = '-' then (true, cs) else if c = '+' then (false, cs) else (false, c :: cs)
  | [] => (false, [])

/-- In base 16 an optional `0x` or `0X` in front of the digits is skipped.
When no hex digit follows it, only the `0` is a numeral; its value, 0, is
also what scanning no digit at all gives. -/
def skip_0x (base : Nat) : List Char → List Char
  | c :: d :: cs => if base = 16 ∧ c = '0' ∧ (d = 'x' ∨ d = 'X') then cs else c :: d :: cs
  | s => s

/-- Largest `unsigned long`. -/
def ULONG_MAX : Nat := 2 ^ 64 - 1

/-- Largest `long`. -/
def LONG_MAX : Int := 2 ^ 63 - 1

/-- Smallest `long`. -/
def LONG_MIN : Int := -(2 ^ 63)

/-- The number base a stream reads and writes integers in (`std::dec`, `std::hex`). -/
inductive Basefield
  | dec
  | hex
  deriving DecidableEq, Repr

/-- The radix of a base field. -/
def Basefield.radix : Basefield → Nat
  | .dec => 10
  | .hex => 16

/-- The stream extraction `ss >> out` for `unsigned long out`, on a stream
holding `content` with the given base field; `out` is the value the variable
had before.

The sentry skips white space; when it reaches the end of the stream it sets
`failbit` and `num_get` is never called, so the variable keeps its old value.
Otherwise `num_get` reads a sign, an optional `0x` in base 16 and digits, and
stores: 0 when there is no digit, `ULONG_MAX` when the value does not fit, the
negated value (modulo `2 ^ 64`) after a minus sign, the value otherwise. -/
def extract_unsigned_long (base : Basefield) (content : List Char) (out : Nat) : Nat :=
  let rest := content.dropWhile isspace
  if rest = [] then out
  else
    let signed := scan_sign rest
    let v := scan_digits base.radix (skip_0x base.radix signed.2) 0
    if v > ULONG_MAX then ULONG_MAX
    else if signed.1 then (2 ^ 64 - v) % 2 ^ 64
    else v

/-- The function template `parse_number<T2>` for an unsigned `T2` of `w` bits;
`out` is the indeterminate value of the uninitialised local `out`. -/
def parse_number (w : Nat) (out : Nat) (string : List Char) : Nat :=
  let base : Basefield :=
    if string.length ≥ 2 ∧ string[0]? = some '0' ∧ string[1]? = some 'x' then .hex else .dec
  extract_unsigned_long base string out % 2 ^ w

/-- The C library `strtol(s, NULL, 16)` on the C string held in `s` (which ends
at the first NUL): white space, a sign, an optional `0x`, hex digits; the
result is clamped to the range of `long`. -/
def strtol16 (s : List Char) : Int :=
  let cstr := s.takeWhile (fun c => c.toNat ≠ 0)
  let signed := scan_sign (cstr.dropWhile isspace)
  let v : Int := scan_digits 16 (skip_0x 16 signed.2) 0
  if signed.1 then max (-v) LONG_MIN else min v LONG_MAX

/-- Conversion of a `long` to `char` and on to `unsigned char`: the low 8 bits. -/
def to_uchar (v : Int) : Nat := (v % 256).toNat

/-- The byte a `char` of a string is stored as in a `vector<unsigned char>`. -/
def char_byte (c : Char) : Nat := c.toNat % 256

/-! ## `parse_data` -/

/-- How a call can fail to return a value. -/
inductive Fault
  /-- An iterator range `[first, last)` with `last` before `first` or past the end
  (undefined behaviour; in practice an exception from the vector constructor
  or a read out of bounds). -/
  | invalid_range
  /-- The loop never ends. -/
  | no_termination
  deriving DecidableEq, Repr

deriving instance DecidableEq for Except

/-- The `for` loop of `parse_data`: `i` is the `unsigned int` loop counter,
`size` the `size_t` bound, `data` the vector being filled.  The product `i * 2`
is computed in `unsigned int`.  The first argument counts loop tests. -/
def parse_data_loop (data_string : List Char) (size : Nat) :
    Nat → Nat → List Nat → Except Fault (List Nat)
  | 0, _, _ => .error .no_termination
  | fuel + 1, i, data =>
    if i < size then
      let byteString := (data_string.drop (i * 2 % 2 ^ 32)).take 2
      parse_data_loop data_string size fuel ((i + 1) % 2 ^ 32)
        (data.set i (to_uchar (strtol16 byteString)))
    else .ok data

/-- The function `parse_data`.  `data_string[0]` of an empty string is the NUL
terminator, so an empty string takes the second branch.

First branch: `data_string.size() - 2` is computed in `size_t`; the vector is
built from the iterator range `[begin + 1, begin + size)`.

Second branch: the loop ends after `size` rounds if it ends at all (the
counter only reaches `size` by counting up to it), so `size + 1` loop tests
are enough exactly when it ends. -/
def parse_data (data_string : List Char) (size : Nat) : Except Fault (List Nat) :=
  if data_string.head? = some dquote then
    let size1 := min size ((data_string.length + 2 ^ 64 - 2) % 2 ^ 64)
    if 1 ≤ size1 ∧ size1 ≤ data_string.length then
      .ok (((data_string.take size1).drop 1).map char_byte)
    else .error .invalid_range
  else
    let size1 := min size (data_string.length / 2)
    parse_data_loop data_string size1 (size1 + 1) 0 (List.replicate size1 0)

/-! ## The tokenizer of `main` -/

/-- The call `line.find(" ")`: the position of the first space, `none` for `npos`. -/
def find_space : List Char → Option Nat
  | [] => none
  | c :: cs => if c = ' ' then some 0 else (find_space cs).map (· + 1)

/-- The `do ... while` loop that splits a line into tokens.  With `pos == npos`
the token is the whole rest, and `pos + 1` wraps to 0, so `erase(0, pos + 1)`
erases nothing.  The first argument counts rounds. -/
def tokenize_loop : Nat → List Char → List (List Char) → Option (List (List Char))
  | 0, _, _ => none
  | fuel + 1, line, tokens =>
    let pos := find_space line
    let tokens1 := tokens ++ [line.take (match pos with | none => line.length | some p => p)]
    let line1 := line.drop (match pos with | none => 0 | some p => p + 1)
    match pos with
    | some _ => tokenize_loop fuel line1 tokens1
    | none => some tokens1

/-- The tokens of a line; `none` if the loop did not finish within
`line.length + 1` rounds. -/
def tokenize (line : List Char) : Option (List (List Char)) :=
  tokenize_loop (line.length + 1) line []

/-- The erase-remove idiom of `main` on `tokens[6]`: all spaces are removed. -/
def remove_spaces (token : List Char) : List Char :=
  token.filter (fun c => c != ' ')

/-! ## The command dispatcher of `main` -/

/-- The branches of the `if`/`else if` chain on `command`, named after what
each one calls. -/
inductive Handler
  | quit
  | list_devices
  | open_device
  | close_device
  | reset_device
  | get_device_info
  | get_device_configuration
  | set_device_configuration
  | send_device_control
  | claim_hub_port
  | unclaim_hub_port
  | help
  | unsupported
  deriving DecidableEq, Repr

/-- The chain of string comparisons on `command`, in the order of the source. -/
def dispatch (command : List Char) : Handler :=
  if command = "exit".data then .quit
  else if command = "list".data ∨ command = "l".data ∨ command = "ls".data then .list_devices
  else if command = "open".data then .open_device
  else if command = "close".data then .close_device
  else if command = "reset".data then .reset_device
  else if command = "info".data then .get_device_info
  else if command = "get-conf".data ∨ command = "gc".data then .get_device_configuration
  else if command = "change-conf".data ∨ command = "cc".data then .set_device_configuration
  else if command = "send-ctrl".data ∨ command = "sc".data then .send_device_control
  else if command = "claim".data then .claim_hub_port
  else if command = "unclaim".data then .unclaim_hub_port
  else if command = "help".data ∨ command = "h".data then .help
  else .unsupported

/-! ## The `send-ctrl` branch of `main` and `send_device_control` -/

/-- The arguments `main` passes to `send_device_control`. -/
structure ControlArgs where
  bmRequestType : Nat
  bRequest : Nat
  wValue : Nat
  wIndex : Nat
  wLength : Nat
  data : List Nat
  timeout : Nat
  deriving DecidableEq, Repr

/-- The constant `DEFAULT_TIMEOUT`. -/
def DEFAULT_TIMEOUT : Nat := 5000

/-- The element `tokens[k]`, read only where the code has checked `tokens.size()`. -/
def token (tokens : List (List Char)) (k : Nat) : List Char := tokens.getD k []

/-- The `send-ctrl` branch of `main` up to the call of `send_device_control`.
`uninit k` is the indeterminate start value of `out` in the call
`parse_number(tokens[k])`.  The result is `.ok none` after "Too few arguments"
and `.error` when `parse_data` faults, in which case the call is not reached. -/
def send_ctrl_args (uninit : Nat → Nat) (tokens : List (List Char)) :
    Except Fault (Option ControlArgs) :=
  if tokens.length < 5 then .ok none
  else
    let bmRequestType := parse_number 8 (uninit 1) (token tokens 1)
    let bRequest := parse_number 8 (uninit 2) (token tokens 2)
    let wValue := parse_number 16 (uninit 3) (token tokens 3)
    let wIndex := parse_number 16 (uninit 4) (token tokens 4)
    let wLength := if tokens.length ≥ 6 then parse_number 16 (uninit 5) (token tokens 5) else 0
    let timeout :=
      if tokens.length ≥ 8 then parse_number 32 (uninit 7) (token tokens 7) else DEFAULT_TIMEOUT
    if tokens.length ≥ 7 then
      let tokens1 := tokens.set 6 (remove_spaces (token tokens 6))
      match parse_data (token tokens1 5) wLength with
      | .ok data => .ok (some ⟨bmRequestType, bRequest, wValue, wIndex, wLength, data, timeout⟩)
      | .error f => .error f
    else .ok (some ⟨bmRequestType, bRequest, wValue, wIndex, wLength, [], timeout⟩)

/-- The libusb constant `LIBUSB_ENDPOINT_DIR_MASK`. -/
def LIBUSB_ENDPOINT_DIR_MASK : Nat := 0x80

/-- The libusb constant `LIBUSB_ENDPOINT_IN`. -/
def LIBUSB_ENDPOINT_IN : Nat := 0x80

/-- The call `data.resize(n)` on a byte vector: cut, or filled up with zeros. -/
def resize (data : List Nat) (n : Nat) : List Nat :=
  data.take n ++ List.replicate (n - data.length) 0

/-- The arguments of one call of `libusb_control_transfer`: the buffer behind
`data.data()` and the number of bytes the library is told to move. -/
structure Transfer where
  bmRequestType : Nat
  bRequest : Nat
  wValue : Nat
  wIndex : Nat
  buffer : List Nat
  wLength : Nat
  timeout : Nat
  deriving DecidableEq, Repr

/-- The function `send_device_control` up to its call of
`libusb_control_transfer`: `none` when no device is open ("Open a device
first."), otherwise the call that is made. -/
def send_device_control (opened_device : Option Nat) (a : ControlArgs) : Option Transfer :=
  match opened_device with
  | none => none
  | some _ =>
    let data :=
      if a.bmRequestType &&& LIBUSB_ENDPOINT_DIR_MASK = LIBUSB_ENDPOINT_IN then
        resize a.data a.wLength
      else a.data
    some ⟨a.bmRequestType, a.bRequest, a.wValue, a.wIndex, data, a.wLength, a.timeout⟩

/-- What the line `line` makes `send_device_control` pass to
`libusb_control_transfer`, if the line is a `send-ctrl` command that gets
that far. -/
def send_ctrl_transfer (uninit : Nat → Nat) (opened_device : Option Nat) (line : List Char) :
    Option Transfer :=
  match tokenize line with
  | none => none
  | some tokens =>
    if dispatch (token tokens 0) = .send_device_control then
      match send_ctrl_args uninit tokens with
      | .ok (some a) => send_device_control opened_device a
      | _ => none
    else none

/-! ## The environment -/

/-- The fields of `libusb_device_descriptor` that `list_devices` prints. -/
structure Descriptor where
  bNumConfigurations : Nat
  bDeviceClass : Nat
  idVendor : Nat
  idProduct : Nat
  deriving DecidableEq, Repr

/-- What libusb, the kernel and the compiler answer during one command. -/
structure Env where
  /-- The indeterminate start value of `out` in `parse_number(tokens[k])`. -/
  uninit : Nat → Nat
  /-- The result of `libusb_get_device_list`. -/
  device_count : Int
  /-- The result of `libusb_get_device_descriptor(devices[i], ...)`: the error
  code and the descriptor. -/
  descriptor : Nat → Int × Descriptor
  /-- The function `libusb_error_name`. -/
  error_name : Int → List Char
  /-- The result of `libusb_open`; the handle is stored only when it is 0. -/
  open_error : Int
  /-- The handle `libusb_open` creates when it succeeds. -/
  open_handle : Nat
  /-- The result of `libusb_open_device_with_vid_pid`, `none` for `NULL`. -/
  vid_pid_handle : Option Nat
  /-- The result of `libusb_reset_device`. -/
  reset_error : Int
  /-- The result of `open(path, O_WRONLY)` on the hub device file. -/
  hub_fd : Int
  /-- The result of `ioctl(fd, USBDEVFS_CLAIM_PORT, ...)`. -/
  claim_error : Int
  /-- The result of `ioctl(fd, USBDEVFS_RELEASE_PORT, ...)`. -/
  release_error : Int

/-! ## Output formatting and `list_devices` -/

/-- The manipulator `std::endl`. -/
def endl : List Char := "\n".data

/-- The text `operator<<` writes for an unsigned integer: no prefix, lower case. -/
def put_unsigned (base : Basefield) (n : Nat) : List Char :=
  Nat.toDigits base.radix n

/-- The text `operator<<` writes for a signed integer of `bits` bits: in base
16 the two's complement bit pattern is written. -/
def put_signed (base : Basefield) (bits : Nat) (v : Int) : List Char :=
  match base with
  | .dec => if v < 0 then '-' :: Nat.toDigits 10 (-v).toNat else Nat.toDigits 10 v.toNat
  | .hex => Nat.toDigits 16 (v % 2 ^ bits).toNat

/-- The `for` loop of `list_devices`: `i` is the `unsigned int` counter, `base`
the base field of `std::cout`, `out` the text written so far.  `std::hex` is
sent to `std::cout` itself, so the base field stays hexadecimal. -/
def list_devices_loop (env : Env) :
    Nat → Nat → Basefield → List Char → Option (List Char × Basefield)
  | 0, _, _, _ => none
  | fuel + 1, i, base, out =>
    if (i : Int) < env.device_count then
      let r := env.descriptor i
      if r.1 < 0 then
        list_devices_loop env fuel ((i + 1) % 2 ^ 32) base
          (out ++ "Could not get device #".data ++ put_unsigned base i ++ ": ".data
            ++ env.error_name r.1 ++ endl)
      else
        list_devices_loop env fuel ((i + 1) % 2 ^ 32) .hex
          (out ++ endl ++ "DEVICE ".data ++ put_unsigned base i ++ ":".data ++ endl
            ++ "Available Configurations:".data ++ put_signed base 32 r.2.bNumConfigurations
            ++ endl
            ++ "Device Class: ".data ++ put_signed base 32 r.2.bDeviceClass ++ endl
            ++ "Vendor: 0x".data ++ put_unsigned .hex r.2.idVendor ++ endl
            ++ "Product: 0x".data ++ put_unsigned .hex r.2.idProduct ++ endl)
    else some (out, base)

/-- The function `list_devices`: the text it writes to `std::cout` and the base
field it leaves, given the base field it finds. -/
def list_devices (env : Env) (base : Basefield) : Option (List Char × Basefield) :=
  if env.device_count < 0 then
    some ("Could not get devices: ".data ++ env.error_name env.device_count
      ++ put_signed base 64 env.device_count ++ endl, base)
  else
    list_devices_loop env (env.device_count.toNat + 1) 0 base
      ("Devices Found: ".data ++ put_signed base 64 env.device_count ++ endl)

/-! ## The global state and the handlers that change it -/

/-- The global variables of the program, the base field of `std::cout`, and
ghost fields that record what the process holds: every handle that
`libusb_open` or `libusb_open_device_with_vid_pid` returned and that was not
passed to `libusb_close` since, every descriptor `open` returned and that was
not passed to `close` since, and the largest number of each held at once. -/
structure State where
  opened_device : Option Nat
  claimed_fd : Int
  claimed_port : Int
  cout_base : Basefield
  running : Bool
  open_handles : List Nat
  open_fds : List Int
  peak_handles : Nat
  peak_fds : Nat
  deriving DecidableEq, Repr

/-- The state at the first prompt. -/
def State.initial : State :=
  ⟨none, -1, -1, .dec, true, [], [], 0, 0⟩

/-- Ghost effect of a successful `libusb_open` or `libusb_open_device_with_vid_pid`. -/
def handle_acquired (h : Nat) (s : State) : State :=
  { s with open_handles := h :: s.open_handles,
           peak_handles := max s.peak_handles (s.open_handles.length + 1) }

/-- Ghost effect of `libusb_close`. -/
def libusb_close (h : Nat) (s : State) : State :=
  { s with open_handles := s.open_handles.erase h }

/-- Ghost effect of a successful `open`. -/
def fd_acquired (fd : Int) (s : State) : State :=
  { s with open_fds := fd :: s.open_fds,
           peak_fds := max s.peak_fds (s.open_fds.length + 1) }

/-- Ghost effect of `close`. -/
def sys_close (fd : Int) (s : State) : State :=
  { s with open_fds := s.open_fds.erase fd }

/-- The libusb constant `LIBUSB_ERROR_NOT_FOUND`. -/
def LIBUSB_ERROR_NOT_FOUND : Int := -5

/-- Conversion of an `unsigned int` to `int`. -/
def to_int (n : Nat) : Int :=
  if n % 2 ^ 32 < 2 ^ 31 then (n % 2 ^ 32 : Nat) else (n % 2 ^ 32 : Nat) - 2 ^ 32

/-- The function `close_device`. -/
def close_device (s : State) : State :=
  match s.opened_device with
  | none => s
  | some h => { libusb_close h s with opened_device := none }

/-- The function `open_device(int device_idx)`. -/
def open_device_idx (env : Env) (device_idx : Int) (s : State) : State :=
  let s1 := if s.opened_device ≠ none then close_device s else s
  if env.device_count < 0 then s1
  else if device_idx < 0 ∨ device_idx ≥ env.device_count then s1
  else if env.open_error = 0 then
    { handle_acquired env.open_handle s1 with opened_device := some env.open_handle }
  else s1

/-- The function `open_device(uint16_t vendor_id, uint16_t product_id)`. -/
def open_device_vid_pid (env : Env) (_vendor_id _product_id : Nat) (s : State) : State :=
  let s1 := if s.opened_device ≠ none then close_device s else s
  match env.vid_pid_handle with
  | some h => { handle_acquired h s1 with opened_device := some h }
  | none => { s1 with opened_device := none }

/-- The function `reset_device`. -/
def reset_device (env : Env) (s : State) : State :=
  match s.opened_device with
  | none => s
  | some _ => if env.reset_error = LIBUSB_ERROR_NOT_FOUND then close_device s else s

/-- The function `unclaim_hub_port`. -/
def unclaim_hub_port (_env : Env) (s : State) : State :=
  if s.claimed_fd < 0 then s
  else { sys_close s.claimed_fd s with claimed_fd := -1 }

/-- The function `claim_hub_port`. -/
def claim_hub_port (env : Env) (_bus _hub port : Nat) (s : State) : State :=
  let s1 := if s.claimed_fd ≥ 0 then unclaim_hub_port env s else s
  let s2 : State :=
    if env.hub_fd ≥ 0 then { fd_acquired env.hub_fd s1 with claimed_fd := env.hub_fd }
    else { s1 with claimed_fd := env.hub_fd }
  if s2.claimed_fd < 0 then { s2 with claimed_fd := -1 }
  else if env.claim_error < 0 then { sys_close s2.claimed_fd s2 with claimed_fd := -1 }
  else { s2 with claimed_port := to_int port }

/-- One round of the `while (1)` loop of `main` on the global state: the line
is split, the command dispatched and its handler run.  After `exit` the
process is gone and nothing changes any more.  Handlers that only read the
state leave it as it is; their output is not part of the state. -/
def step (env : Env) (s : State) (line : List Char) : State :=
  if !s.running then s
  else
    match tokenize line with
    | none => s
    | some tokens =>
      if tokens.length = 0 then s
      else
        match dispatch (token tokens 0) with
        | .quit => { close_device (unclaim_hub_port env s) with running := false }
        | .list_devices =>
          match list_devices env s.cout_base with
          | some r => { s with cout_base := r.2 }
          | none => s
        | .open_device =>
          if tokens.length < 2 then s
          else if tokens.length ≥ 3 then
            open_device_vid_pid env (parse_number 16 (env.uninit 1) (token tokens 1))
              (parse_number 16 (env.uninit 2) (token tokens 2)) s
          else open_device_idx env (to_int (parse_number 32 (env.uninit 1) (token tokens 1))) s
        | .close_device => close_device s
        | .reset_device => reset_device env s
        | .claim_hub_port =>
          if tokens.length < 4 then s
          else
            claim_hub_port env (parse_number 32 (env.uninit 1) (token tokens 1))
              (parse_number 32 (env.uninit 2) (token tokens 2))
              (parse_number 32 (env.uninit 3) (token tokens 3)) s
        | .unclaim_hub_port => unclaim_hub_port env s
        | _ => s

/-- The state after a sequence of commands, each with the environment's
answers during it. -/
def run (s : State) : List (Env × List Char) → State
  | [] => s
  | c :: cs => run (step c.1 s c.2) cs

/-- An environment with ten devices attached, all of which answer. -/
def env_ten : Env where
  uninit := fun _ => 0
  device_count := 10
  descriptor := fun _ => (0, ⟨1, 9, 0x1d6b, 2⟩)
  error_name := fun _ => "LIBUSB_ERROR_OTHER".data
  open_error := 0
  open_handle := 1
  vid_pid_handle := some 1
  reset_error := 0
  hub_fd := 3
  claim_error := 0
  release_error := 0

/-! ## Notions the properties are stated with -/

/-- The decimal digits. -/
def dec_digits : List Char := "0123456789".data

/-- The hexadecimal digits, in both cases. -/
def hex_digits : List Char := "0123456789abcdefABCDEF".data

/-- The value of a digit character: its place in `0123456789abcdef`,
whatever its case. -/
def digit_index (c : Char) : Nat := "0123456789abcdef".data.indexOf c.toLower

/-- The number a numeral denotes in a base: its digits weighted by the powers
of the base, the last digit counting units. -/
def numeral_value (base : Nat) (ds : List Char) : Nat :=
  Nat.ofDigits base (ds.reverse.map digit_index)

/-- The hex digit for `n < 16`, upper or lower case. -/
def hex_char (upper : Bool) (n : Nat) : Char :=
  if upper then "0123456789ABCDEF".data.getD n '0' else "0123456789abcdef".data.getD n '0'

/-- The hex-pair encoding of a byte list: two hex digits per byte, the most
significant nibble first; `upper k` says whether the `k`-th character of the
encoding is written in upper case. -/
def hex_encode (upper : Nat → Bool) : List Nat → List Char
  | [] => []
  | x :: b =>
    hex_char (upper 0) (x / 16) :: hex_char (upper 1) (x % 16)
      :: hex_encode (fun k => upper (k + 2)) b

/-- A byte list of `2 ^ 31 + 1` bytes: zeros, then a one. -/
def long_bytes : List Nat := List.replicate (2 ^ 31) 0 ++ [1]

/-- What the ghost fields must say of a state: the handles held are exactly
`opened_device`, the descriptors held exactly `claimed_fd`, never more than
one of either was held at once, and a negative `claimed_fd` is `-1`. -/
def Tracked (s : State) : Prop :=
  s.open_handles = s.opened_device.toList ∧
  s.open_fds = (if 0 ≤ s.claimed_fd then [s.claimed_fd] else []) ∧
  s.peak_handles ≤ 1 ∧ s.peak_fds ≤ 1 ∧ (s.claimed_fd < 0 → s.claimed_fd = -1)

/-- Whether `open_device(int)` gets a handle from `libusb_open`. -/
def open_idx_succeeds (env : Env) (device_idx : Int) : Prop :=
  0 ≤ env.device_count ∧ 0 ≤ device_idx ∧ device_idx < env.device_count ∧ env.open_error = 0

instance (env : Env) (device_idx : Int) : Decidable (open_idx_succeeds env device_idx) := by
  unfold open_idx_succeeds; infer_instance

set_option maxRecDepth 100000

/-! ## The tokenizer -/

theorem find_space_none {l : List Char} (h : find_space l = none) : ' ' ∉ l := by
  induction l with
  | nil => simp
  | cons c cs ih =>
    unfold find_space at h
    split at h
    · simp at h
    · rename_i hc
      simp only [Option.map_eq_none'] at h
      simp only [List.mem_cons, not_or]
      exact ⟨fun e => hc e.symm, ih h⟩

theorem find_space_some {l : List Char} {p : Nat} (h : find_space l = some p) :
    p < l.length ∧ ' ' ∉ l.take p ∧ l = l.take p ++ ' ' :: l.drop (p + 1) := by
  induction l generalizing p with
  | nil => simp [find_space] at h
  | cons c cs ih =>
    unfold find_space at h
    split at h
    · rename_i hc
      simp only [Option.some.injEq] at h
      subst h
      simp [hc]
    · rename_i hc
      simp only [Option.map_eq_some'] at h
      obtain ⟨q, hq, rfl⟩ := h
      obtain ⟨h1, h2, h3⟩ := ih hq
      refine ⟨by simpa using h1, ?_, ?_⟩
      · simp only [List.take_succ_cons, List.mem_cons, not_or]
        exact ⟨fun e => hc e.symm, h2⟩
      · simp only [List.take_succ_cons, List.drop_succ_cons, List.cons_append, List.cons.injEq,
          true_and]
        exact h3

theorem intercalate_cons_of_ne_nil (sep t : List Char) {ts : List (List Char)} (h : ts ≠ []) :
    sep.intercalate (t :: ts) = t ++ sep ++ sep.intercalate ts := by
  cases ts with
  | nil => exact absurd rfl h
  | cons u us => simp [List.intercalate, List.intersperse]

theorem remove_spaces_of_not_mem {t : List Char} (h : ' ' ∉ t) : remove_spaces t = t := by
  unfold remove_spaces
  rw [List.filter_eq_self]
  intro c hc
  simp only [bne_iff_ne, ne_eq]
  rintro rfl
  exact h hc

theorem tokenize_loop_spec (fuel : Nat) : ∀ (line : List Char) (acc : List (List Char)),
    line.length < fuel →
    ∃ toks, tokenize_loop fuel line acc = some (acc ++ toks) ∧ toks ≠ [] ∧
      (∀ t ∈ toks, ' ' ∉ t) ∧ toks.length = line.count ' ' + 1 ∧
      [' '].intercalate toks = line ∧ (line = [] → toks = [[]]) := by
  induction fuel with
  | zero => intro line acc h; omega
  | succ fuel ih =>
    intro line acc hlen
    unfold tokenize_loop
    cases hp : find_space line with
    | none =>
      have hns := find_space_none hp
      refine ⟨[line], by simp, by simp, ?_, ?_, by simp [List.intercalate], ?_⟩
      · simpa using hns
      · simp [List.count_eq_zero_of_not_mem hns]
      · intro h; simp [h]
    | some p =>
      obtain ⟨hlt, hnot, hsplit⟩ := find_space_some hp
      have hdrop : (line.drop (p + 1)).length < fuel := by
        simp only [List.length_drop]; omega
      obtain ⟨toks, h1, h2, h3, h4, h5, _⟩ := ih (line.drop (p + 1)) (acc ++ [line.take p]) hdrop
      refine ⟨line.take p :: toks, ?_, by simp, ?_, ?_, ?_, ?_⟩
      · simp only [h1, List.append_assoc, List.singleton_append]
      · intro t ht
        rcases List.mem_cons.1 ht with rfl | ht
        · exact hnot
        · exact h3 t ht
      · have hc : line.count ' ' = (line.take p).count ' ' + (' ' :: line.drop (p + 1)).count ' ' := by
          conv_lhs => rw [hsplit]
          exact List.count_append _ _ _
        rw [hc, List.count_eq_zero_of_not_mem hnot, List.count_cons_self, List.length_cons, h4]
        omega
      · rw [intercalate_cons_of_ne_nil _ _ h2, h5]
        conv_rhs => rw [hsplit]
        simp
      · intro h
        rw [h] at hlt
        simp at hlt

/-- C8: for every input line the tokenizer loop finishes with a token list
that is not empty (so `tokens.size() == 0` never holds), in which no token
contains a space, whose length is the number of spaces in the line plus one,
and whose tokens joined by single spaces give the line back; the empty line
gives the single empty token; removing the spaces of any token (as `main`
does with `tokens[6]`) changes nothing. -/
theorem tokenize_splits_on_spaces (line : List Char) :
    ∃ tokens, tokenize line = some tokens ∧ tokens ≠ [] ∧ tokens.length ≠ 0 ∧
      (∀ t ∈ tokens, ' ' ∉ t) ∧ tokens.length = line.count ' ' + 1 ∧
      [' '].intercalate tokens = line ∧ (line = [] → tokens = [[]]) ∧
      (∀ t ∈ tokens, remove_spaces t = t) := by
  obtain ⟨toks, h1, h2, h3, h4, h5, h6⟩ :=
    tokenize_loop_spec (line.length + 1) line [] (Nat.lt_succ_self _)
  refine ⟨toks, by simpa [tokenize] using h1, h2, ?_, h3, h4, h5, h6, ?_⟩
  · simpa [List.length_eq_zero] using h2
  · intro t ht
    exact remove_spaces_of_not_mem (h3 t ht)


/-! ## Numerals -/

theorem dec_digit_facts : ∀ c ∈ dec_digits,
    digit_value c = some (digit_index c) ∧ digit_index c < 10 ∧ isspace c = false ∧
      c ≠ '-' ∧ c ≠ '+' ∧ c ≠ 'x' := by
  decide

theorem hex_digit_facts : ∀ c ∈ hex_digits,
    digit_value c = some (digit_index c) ∧ digit_index c < 16 := by
  decide

theorem scan_digits_all (base : Nat) :
    ∀ (ds : List Char) (acc : Nat),
    (∀ c ∈ ds, digit_value c = some (digit_index c) ∧ digit_index c < base) →
    scan_digits base ds acc = acc * base ^ ds.length + numeral_value base ds := by
  intro ds
  induction ds with
  | nil => intro acc _; simp [scan_digits, numeral_value]
  | cons c cs ih =>
    intro acc h
    have hc := h c (List.mem_cons_self _ _)
    have hcs : ∀ d ∈ cs, digit_value d = some (digit_index d) ∧ digit_index d < base :=
      fun d hd => h d (List.mem_cons_of_mem _ hd)
    unfold scan_digits
    simp only [hc.1, hc.2, if_true]
    rw [ih _ hcs]
    simp only [numeral_value, List.reverse_cons, List.map_append, List.map_cons, List.map_nil,
      Nat.ofDigits_append, Nat.ofDigits_singleton, List.length_map, List.length_reverse,
      List.length_cons]
    ring

theorem extract_unsigned (base : Basefield) (out : Nat) (c : Char) (cs : List Char)
    (hsp : isspace c = false) (hm : c ≠ '-') (hp : c ≠ '+')
    (hv : scan_digits base.radix (skip_0x base.radix (c :: cs)) 0 < 2 ^ 64) :
    extract_unsigned_long base (c :: cs) out
      = scan_digits base.radix (skip_0x base.radix (c :: cs)) 0 := by
  have hdrop : (c :: cs).dropWhile isspace = c :: cs := by
    simp [List.dropWhile_cons, hsp]
  have hsign : scan_sign (c :: cs) = (false, c :: cs) := by
    simp [scan_sign, hm, hp]
  have hfit : ¬ scan_digits base.radix (skip_0x base.radix (c :: cs)) 0 > ULONG_MAX := by
    simp only [ULONG_MAX]; omega
  unfold extract_unsigned_long
  simp only [hdrop, hsign]
  rw [if_neg (by simp), if_neg hfit, if_neg (by simp)]

theorem extract_dec (out : Nat) (ds : List Char) (hne : ds ≠ [])
    (hd : ∀ c ∈ ds, c ∈ dec_digits) (hv : numeral_value 10 ds < 2 ^ 64) :
    extract_unsigned_long .dec ds out = numeral_value 10 ds := by
  cases ds with
  | nil => exact absurd rfl hne
  | cons c cs =>
    obtain ⟨_, _, hsp, hm, hp, _⟩ := dec_digit_facts c (hd c (List.mem_cons_self _ _))
    have hall : ∀ d ∈ c :: cs, digit_value d = some (digit_index d) ∧ digit_index d < 10 :=
      fun d hd1 => ⟨(dec_digit_facts d (hd d hd1)).1, (dec_digit_facts d (hd d hd1)).2.1⟩
    have hskip : skip_0x 10 (c :: cs) = c :: cs := by
      cases cs <;> simp [skip_0x]
    have hscan : scan_digits 10 (c :: cs) 0 = numeral_value 10 (c :: cs) := by
      rw [scan_digits_all 10 (c :: cs) 0 hall]; omega
    have key := extract_unsigned .dec out c cs hsp hm hp
    simp only [Basefield.radix, hskip, hscan] at key
    exact key hv

theorem extract_hex (out : Nat) (ds : List Char)
    (hd : ∀ c ∈ ds, c ∈ hex_digits) (hv : numeral_value 16 ds < 2 ^ 64) :
    extract_unsigned_long .hex ('0' :: 'x' :: ds) out = numeral_value 16 ds := by
  have hscan : scan_digits 16 ds 0 = numeral_value 16 ds := by
    rw [scan_digits_all 16 ds 0 (fun d hd1 => hex_digit_facts d (hd d hd1))]; omega
  have hskip : skip_0x 16 ('0' :: 'x' :: ds) = ds := by
    simp [skip_0x]
  have key := extract_unsigned .hex out '0' ('x' :: ds) (by decide) (by decide) (by decide)
  simp only [Basefield.radix, hskip, hscan] at key
  exact key hv

/-- C4: for every target width `w` (in particular 8, 16 and 32) and every
numeral whose value fits in 64 bits, `parse_number` on a non-empty string of
decimal digits returns the decimal value modulo `2 ^ w`, and on `0x` followed by
a non-empty string of hex digits the hexadecimal value modulo `2 ^ w`,
whatever the uninitialised `out` held. -/
theorem parse_number_truncates (w out : Nat) (ds : List Char) (hne : ds ≠ []) :
    ((∀ c ∈ ds, c ∈ dec_digits) → numeral_value 10 ds < 2 ^ 64 →
      parse_number w out ds = numeral_value 10 ds % 2 ^ w) ∧
    ((∀ c ∈ ds, c ∈ hex_digits) → numeral_value 16 ds < 2 ^ 64 →
      parse_number w out ('0' :: 'x' :: ds) = numeral_value 16 ds % 2 ^ w) := by
  constructor
  · intro hd hv
    have hbase : ¬ (ds.length ≥ 2 ∧ ds[0]? = some '0' ∧ ds[1]? = some 'x') := by
      rintro ⟨_, _, h1⟩
      have hmem : 'x' ∈ ds := List.getElem?_mem h1
      exact (dec_digit_facts _ (hd _ hmem)).2.2.2.2.2 rfl
    simp only [parse_number, hbase, if_false, extract_dec out ds hne hd hv]
  · intro hd hv
    have hbase : ('0' :: 'x' :: ds).length ≥ 2 ∧ ('0' :: 'x' :: ds)[0]? = some '0' ∧
        ('0' :: 'x' :: ds)[1]? = some 'x' := by simp
    simp only [parse_number, hbase, and_self, if_true, extract_hex out ds hd hv]

/-- The numeral `0x1F` read as a 8-bit value, and `300` read as one. -/
theorem parse_number_truncates_witness :
    (parse_number 8 7 "300".data = numeral_value 10 "300".data % 2 ^ 8) ∧
    (parse_number 16 7 "0x1fA".data = numeral_value 16 "1fA".data % 2 ^ 16) ∧
    numeral_value 10 "300".data = 300 ∧ numeral_value 16 "1fA".data = 506 :=
  ⟨(parse_number_truncates 8 7 "300".data (by decide)).1 (by decide) (by decide),
   (parse_number_truncates 16 7 "1fA".data (by decide)).2 (by decide) (by decide),
   by decide, by decide⟩


/-! ## `parse_data` on hex pairs -/

theorem hex_char_facts : ∀ u : Bool, ∀ n < 16,
    digit_value (hex_char u n) = some n ∧ isspace (hex_char u n) = false ∧
      (hex_char u n).toNat ≠ 0 ∧ hex_char u n ≠ '-' ∧ hex_char u n ≠ '+' ∧
      hex_char u n ≠ 'x' ∧ hex_char u n ≠ 'X' ∧ hex_char u n ≠ dquote := by
  decide

theorem strtol16_pair (u1 u2 : Bool) (x : Nat) (hx : x < 256) :
    to_uchar (strtol16 [hex_char u1 (x / 16), hex_char u2 (x % 16)]) = x := by
  have h1 : x / 16 < 16 := by omega
  have h2 : x % 16 < 16 := by omega
  obtain ⟨a1, a2, a3, a4, a5, a6, a7, _⟩ := hex_char_facts u1 _ h1
  obtain ⟨b1, b2, b3, b4, b5, b6, b7, _⟩ := hex_char_facts u2 _ h2
  have htake : [hex_char u1 (x / 16), hex_char u2 (x % 16)].takeWhile (fun c => c.toNat ≠ 0)
      = [hex_char u1 (x / 16), hex_char u2 (x % 16)] := by
    simp [List.takeWhile_cons, a3, b3]
  have hdrop : [hex_char u1 (x / 16), hex_char u2 (x % 16)].dropWhile isspace
      = [hex_char u1 (x / 16), hex_char u2 (x % 16)] := by
    simp [List.dropWhile_cons, a2]
  have hsign : scan_sign [hex_char u1 (x / 16), hex_char u2 (x % 16)]
      = (false, [hex_char u1 (x / 16), hex_char u2 (x % 16)]) := by
    simp [scan_sign, a4, a5]
  have hskip : skip_0x 16 [hex_char u1 (x / 16), hex_char u2 (x % 16)]
      = [hex_char u1 (x / 16), hex_char u2 (x % 16)] := by
    simp [skip_0x, b6, b7]
  have hscan : scan_digits 16 [hex_char u1 (x / 16), hex_char u2 (x % 16)] 0 = x := by
    simp only [scan_digits, a1, b1, h1, h2, if_true]
    omega
  unfold strtol16
  simp only [htake, hdrop, hsign, hskip, hscan]
  simp only [Bool.false_eq_true, if_false, LONG_MAX, to_uchar]
  omega

theorem hex_encode_length (b : List Nat) : ∀ upper, (hex_encode upper b).length = 2 * b.length := by
  induction b with
  | nil => intro _; rfl
  | cons x b ih => intro upper; simp only [hex_encode, List.length_cons, ih]; omega

theorem hex_encode_head (b : List Nat) (upper : Nat → Bool) (hb : ∀ x ∈ b, x < 256) :
    (hex_encode upper b).head? ≠ some dquote := by
  cases b with
  | nil => simp [hex_encode]
  | cons x b =>
    have hx := hb x (List.mem_cons_self _ _)
    have h := (hex_char_facts (upper 0) (x / 16) (by omega)).2.2.2.2.2.2.2
    simpa [hex_encode] using h

theorem hex_encode_pair (b : List Nat) : ∀ (upper : Nat → Bool) (j : Nat) (hj : j < b.length),
    ((hex_encode upper b).drop (2 * j)).take 2
      = [hex_char (upper (2 * j)) (b[j] / 16), hex_char (upper (2 * j + 1)) (b[j] % 16)] := by
  induction b with
  | nil => intro _ j hj; simp at hj
  | cons x b ih =>
    intro upper j hj
    cases j with
    | zero => simp [hex_encode]
    | succ j =>
      have hj1 : j < b.length := by simpa using hj
      have e : 2 * (j + 1) = (2 * j) + 1 + 1 := by ring
      rw [e]
      simp only [hex_encode, List.drop_succ_cons, List.getElem_cons_succ]
      rw [ih (fun k => upper (k + 2)) j hj1]

theorem take_set_self (a : Nat) : ∀ (l : List Nat) (i : Nat), (l.set i a).take i = l.take i := by
  intro l
  induction l with
  | nil => intro i; simp
  | cons x l ih =>
    intro i
    cases i with
    | zero => simp
    | succ i => simp [ih]

theorem parse_data_loop_spec (s : List Char) (size : Nat) (hsize : size < 2 ^ 32) (fuel : Nat) :
    ∀ (i : Nat) (data : List Nat), i ≤ size → size - i < fuel → data.length = size →
    parse_data_loop s size fuel i data
      = .ok (data.take i ++ (List.range' i (size - i)).map
          (fun j => to_uchar (strtol16 ((s.drop (j * 2 % 2 ^ 32)).take 2)))) := by
  induction fuel with
  | zero => intro i data _ h; omega
  | succ fuel ih =>
    intro i data hi hfuel hlen
    unfold parse_data_loop
    by_cases hlt : i < size
    · rw [if_pos hlt]
      have hmod : (i + 1) % 2 ^ 32 = i + 1 := Nat.mod_eq_of_lt (by omega)
      simp only [hmod]
      rw [ih (i + 1) _ (by omega) (by omega) (by simpa using hlen)]
      have hr : List.range' i (size - i) = i :: List.range' (i + 1) (size - (i + 1)) := by
        have : size - i = (size - (i + 1)) + 1 := by omega
        rw [this, List.range'_succ]
      rw [hr, List.map_cons, List.take_succ]
      have hget : (data.set i (to_uchar (strtol16 ((s.drop (i * 2 % 2 ^ 32)).take 2))))[i]?
          = some (to_uchar (strtol16 ((s.drop (i * 2 % 2 ^ 32)).take 2))) := by
        rw [List.getElem?_set_self]
        simp [hlen, hlt]
      rw [hget, take_set_self]
      simp
    · rw [if_neg hlt]
      have : i = size := by omega
      subst this
      simp [← hlen]

theorem parse_data_hex (upper : Nat → Bool) (b : List Nat) (size : Nat)
    (hb : ∀ x ∈ b, x < 256) (hlt : min size b.length < 2 ^ 32) :
    parse_data (hex_encode upper b) size
      = .ok ((List.range (min size b.length)).map (fun j => b.getD (j * 2 % 2 ^ 32 / 2) 0)) := by
  unfold parse_data
  rw [if_neg (hex_encode_head b upper hb)]
  have hlen : (hex_encode upper b).length / 2 = b.length := by
    rw [hex_encode_length]; omega
  simp only [hlen]
  rw [parse_data_loop_spec _ _ hlt _ 0 _ (Nat.zero_le _) (by omega) (by simp)]
  simp only [List.take_zero, List.nil_append, Nat.sub_zero, List.range_eq_range']
  congr 1
  apply List.map_congr_left
  intro j hj
  have hj1 : j < min size b.length := by
    simpa [List.mem_range'_1] using hj
  obtain ⟨k, hkdef⟩ : ∃ k, k = j * 2 % 2 ^ 32 / 2 := ⟨_, rfl⟩
  have hk : j * 2 % 2 ^ 32 = 2 * k := by omega
  have hk2 : k < b.length := by omega
  have hx : b[k] < 256 := hb _ (List.getElem_mem _)
  show to_uchar (strtol16 (((hex_encode upper b).drop (j * 2 % 2 ^ 32)).take 2))
    = b.getD (j * 2 % 2 ^ 32 / 2) 0
  rw [← hkdef, hk, hex_encode_pair b upper _ hk2, strtol16_pair _ _ _ hx,
    List.getD_eq_getElem?_getD, List.getElem?_eq_getElem hk2]
  rfl

theorem range_map_getD (b : List Nat) : ∀ n, n ≤ b.length →
    (List.range n).map (fun j => b.getD j 0) = b.take n := by
  intro n hn
  apply List.ext_getElem?
  intro k
  by_cases hk : k < n
  · have hk2 : k < b.length := by omega
    simp [List.getElem?_take, hk, hk2, List.getD_eq_getElem?_getD]
  · have h1 : (List.map (fun j => b.getD j 0) (List.range n))[k]? = none := by
      simp; omega
    have h2 : (List.take n b)[k]? = none := by
      simp [List.getElem?_take, hk]
    rw [h1, h2]

/-- C3 as the code has it: for every byte list `b` and every `size` of which
the smaller, `min size |b|`, is at most `2 ^ 31`, `parse_data` on a hex-pair
encoding of `b` (two hex digits per byte, each in either case, most
significant nibble first) returns the first `min size |b|` bytes of `b`; so
decoding undoes encoding when `size ≥ |b|`, and the result never has more than
`size` bytes. -/
theorem parse_data_hex_decodes (upper : Nat → Bool) (b : List Nat) (size : Nat)
    (hb : ∀ x ∈ b, x < 256) (hsz : min size b.length ≤ 2 ^ 31) :
    parse_data (hex_encode upper b) size = .ok (b.take (min size b.length)) ∧
      (b.take (min size b.length)).length ≤ size ∧
      (b.length ≤ size → parse_data (hex_encode upper b) size = .ok b) := by
  have main : parse_data (hex_encode upper b) size = .ok (b.take (min size b.length)) := by
    rw [parse_data_hex upper b size hb (by omega)]
    congr 1
    rw [← range_map_getD b _ (Nat.min_le_right _ _)]
    apply List.map_congr_left
    intro j hj
    have hj1 : j < min size b.length := by simpa using hj
    have : j * 2 % 2 ^ 32 / 2 = j := by omega
    rw [this]
  refine ⟨main, ?_, ?_⟩
  · rw [List.length_take]; omega
  · intro hle
    rw [main, Nat.min_eq_right hle, List.take_length]

/-- The bytes `12 ab` written as `12aB` decode to themselves, and are cut to
the first when `size` is 1. -/
theorem parse_data_hex_decodes_witness :
    parse_data (hex_encode (fun k => decide (k = 3)) [0x12, 0xab]) 1 = .ok [0x12] ∧
    parse_data (hex_encode (fun k => decide (k = 3)) [0x12, 0xab]) 2 = .ok [0x12, 0xab] ∧
    hex_encode (fun k => decide (k = 3)) [0x12, 0xab] = "12aB".data :=
  ⟨(parse_data_hex_decodes (fun k => decide (k = 3)) [0x12, 0xab] 1 (by decide) (by decide)).1,
   (parse_data_hex_decodes (fun k => decide (k = 3)) [0x12, 0xab] 2 (by decide) (by decide)).2.2
     (by decide),
   by decide⟩

theorem long_bytes_length : long_bytes.length = 2 ^ 31 + 1 := by
  unfold long_bytes
  rw [List.length_append, List.length_replicate, List.length_singleton]

theorem long_bytes_lt : ∀ x ∈ long_bytes, x < 256 := by
  intro x hx
  unfold long_bytes at hx
  rcases List.mem_append.1 hx with h | h
  · have := List.eq_of_mem_replicate h
    omega
  · have := List.mem_singleton.1 h
    omega

theorem long_bytes_first : long_bytes.getD 0 0 = 0 := by
  unfold long_bytes
  have e : (2 : Nat) ^ 31 = (2 ^ 31 - 1) + 1 := by norm_num
  rw [e, List.replicate_succ]
  rfl

theorem long_bytes_last : long_bytes[2 ^ 31]? = some 1 := by
  unfold long_bytes
  rw [List.getElem?_append_right (by rw [List.length_replicate]), List.length_replicate,
    Nat.sub_self]
  rfl

/-- C3 fails as stated: on the hex-pair encoding of `2 ^ 31` zero bytes followed
by the byte 1, with `size` the number of bytes, `parse_data` does not return
the bytes: `i * 2` wraps to 0 at `i = 2 ^ 31`, so the last byte returned is the
first byte, 0, instead of 1. -/
theorem parse_data_hex_wraps :
    parse_data (hex_encode (fun _ => false) long_bytes) (2 ^ 31 + 1)
      ≠ .ok (long_bytes.take (min (2 ^ 31 + 1) long_bytes.length)) ∧
    ∃ r, parse_data (hex_encode (fun _ => false) long_bytes) (2 ^ 31 + 1) = .ok r ∧
      r[2 ^ 31]? = some 0 ∧ long_bytes[2 ^ 31]? = some 1 := by
  have hmin : min (2 ^ 31 + 1) long_bytes.length = 2 ^ 31 + 1 := by
    rw [long_bytes_length, Nat.min_self]
  have hrun := parse_data_hex (fun _ => false) long_bytes (2 ^ 31 + 1) long_bytes_lt
    (by rw [hmin]; norm_num)
  rw [hmin] at hrun
  have hr : ((List.range (2 ^ 31 + 1)).map
      (fun j => long_bytes.getD (j * 2 % 2 ^ 32 / 2) 0))[2 ^ 31]? = some 0 := by
    rw [List.getElem?_map, List.getElem?_range (by norm_num)]
    show some (long_bytes.getD (2 ^ 31 * 2 % 2 ^ 32 / 2) 0) = some 0
    have e : 2 ^ 31 * 2 % 2 ^ 32 / 2 = 0 := by norm_num
    rw [e, long_bytes_first]
  refine ⟨?_, _, hrun, hr, long_bytes_last⟩
  rw [hrun, hmin]
  intro heq
  have h1 := Except.ok.inj heq
  have h2 : (List.take (2 ^ 31 + 1) long_bytes)[2 ^ 31]? = some 1 := by
    rw [List.getElem?_take_of_lt (by norm_num)]
    exact long_bytes_last
  rw [← h1, hr] at h2
  exact absurd h2 (by decide)


/-! ## The state machine -/

theorem tracked_initial : Tracked State.initial := by
  simp [Tracked, State.initial]

theorem close_device_spec {s : State} (h : Tracked s) :
    Tracked (close_device s) ∧ (close_device s).opened_device = none ∧
      (close_device s).open_handles = [] ∧ (close_device s).claimed_fd = s.claimed_fd := by
  obtain ⟨od, fd, port, base, running, hs, fds, ph, pf⟩ := s
  obtain ⟨h1, h2, h3, h4, h5⟩ := h
  cases od with
  | none => simp_all [Tracked, close_device]
  | some x => simp_all [Tracked, close_device, libusb_close]

theorem unclaim_hub_port_spec (env : Env) {s : State} (h : Tracked s) :
    Tracked (unclaim_hub_port env s) ∧ (unclaim_hub_port env s).claimed_fd = -1 ∧
      (unclaim_hub_port env s).open_fds = [] ∧
      (unclaim_hub_port env s).opened_device = s.opened_device := by
  unfold unclaim_hub_port
  by_cases hfd : s.claimed_fd < 0
  · rw [if_pos hfd]
    exact ⟨h, h.2.2.2.2 hfd, by rw [h.2.1, if_neg (by omega)], rfl⟩
  · rw [if_neg hfd]
    obtain ⟨h1, h2, h3, h4, _⟩ := h
    have hp : 0 ≤ s.claimed_fd := by omega
    rw [if_pos hp] at h2
    refine ⟨⟨h1, ?_, h3, h4, fun _ => rfl⟩, rfl, ?_, rfl⟩
    · show s.open_fds.erase s.claimed_fd = if 0 ≤ (-1 : Int) then [-1] else []
      rw [h2]; simp
    · show s.open_fds.erase s.claimed_fd = []
      rw [h2]; simp

theorem closed_first {s : State} (h : Tracked s) :
    Tracked (if s.opened_device ≠ none then close_device s else s) ∧
      (if s.opened_device ≠ none then close_device s else s).opened_device = none ∧
      (if s.opened_device ≠ none then close_device s else s).open_handles = [] := by
  obtain ⟨hc, hnone, hempty, _⟩ := close_device_spec h
  by_cases hod : s.opened_device ≠ none
  · rw [if_pos hod]; exact ⟨hc, hnone, hempty⟩
  · rw [if_neg hod]
    have hn : s.opened_device = none := by simpa using hod
    exact ⟨h, hn, by rw [h.1, hn]; rfl⟩

theorem open_device_idx_spec (env : Env) (device_idx : Int) {s : State} (h : Tracked s) :
    Tracked (open_device_idx env device_idx s) ∧
      (open_device_idx env device_idx s).open_handles
        = (if open_idx_succeeds env device_idx then [env.open_handle] else []) := by
  have key : ∀ s1 : State, Tracked s1 → s1.opened_device = none → s1.open_handles = [] →
      Tracked (if env.device_count < 0 then s1
        else if device_idx < 0 ∨ device_idx ≥ env.device_count then s1
        else if env.open_error = 0 then
          { handle_acquired env.open_handle s1 with opened_device := some env.open_handle }
        else s1) ∧
      (if env.device_count < 0 then s1
        else if device_idx < 0 ∨ device_idx ≥ env.device_count then s1
        else if env.open_error = 0 then
          { handle_acquired env.open_handle s1 with opened_device := some env.open_handle }
        else s1).open_handles
        = (if open_idx_succeeds env device_idx then [env.open_handle] else []) := by
    intro s1 ht hn he
    obtain ⟨h1, h2, h3, h4, h5⟩ := ht
    by_cases c1 : env.device_count < 0
    · have hf : ¬ open_idx_succeeds env device_idx := fun hh => by
        have := hh.1; omega
      rw [if_pos c1, if_neg hf]
      exact ⟨⟨h1, h2, h3, h4, h5⟩, he⟩
    · by_cases c2 : device_idx < 0 ∨ device_idx ≥ env.device_count
      · have hf : ¬ open_idx_succeeds env device_idx := fun hh => by
          have := hh.2.1; have := hh.2.2.1; omega
        rw [if_neg c1, if_pos c2, if_neg hf]
        exact ⟨⟨h1, h2, h3, h4, h5⟩, he⟩
      · by_cases c3 : env.open_error = 0
        · have hf : open_idx_succeeds env device_idx := ⟨by omega, by omega, by omega, c3⟩
          rw [if_neg c1, if_neg c2, if_pos c3, if_pos hf]
          refine ⟨⟨?_, h2, ?_, h4, h5⟩, ?_⟩
          · show env.open_handle :: s1.open_handles = [env.open_handle]
            rw [he]
          · show max s1.peak_handles (s1.open_handles.length + 1) ≤ 1
            rw [he]; simp; omega
          · show env.open_handle :: s1.open_handles = [env.open_handle]
            rw [he]
        · have hf : ¬ open_idx_succeeds env device_idx := fun hh => c3 hh.2.2.2
          rw [if_neg c1, if_neg c2, if_neg c3, if_neg hf]
          exact ⟨⟨h1, h2, h3, h4, h5⟩, he⟩
  obtain ⟨t1, t2, t3⟩ := closed_first h
  exact key _ t1 t2 t3

theorem open_device_vid_pid_spec (env : Env) (v p : Nat) {s : State} (h : Tracked s) :
    Tracked (open_device_vid_pid env v p s) ∧
      (open_device_vid_pid env v p s).open_handles = env.vid_pid_handle.toList := by
  have key : ∀ s1 : State, Tracked s1 → s1.opened_device = none → s1.open_handles = [] →
      Tracked (match env.vid_pid_handle with
        | some x => { handle_acquired x s1 with opened_device := some x }
        | none => { s1 with opened_device := none }) ∧
      (match env.vid_pid_handle with
        | some x => { handle_acquired x s1 with opened_device := some x }
        | none => { s1 with opened_device := none }).open_handles = env.vid_pid_handle.toList := by
    intro s1 ht hn he
    obtain ⟨h1, h2, h3, h4, h5⟩ := ht
    cases env.vid_pid_handle with
    | none => exact ⟨⟨he, h2, h3, h4, h5⟩, he⟩
    | some x =>
      refine ⟨⟨?_, h2, ?_, h4, h5⟩, ?_⟩
      · show x :: s1.open_handles = [x]
        rw [he]
      · show max s1.peak_handles (s1.open_handles.length + 1) ≤ 1
        rw [he]; simp; omega
      · show x :: s1.open_handles = [x]
        rw [he]
  obtain ⟨t1, t2, t3⟩ := closed_first h
  exact key _ t1 t2 t3

theorem reset_device_spec (env : Env) {s : State} (h : Tracked s) :
    Tracked (reset_device env s) := by
  unfold reset_device
  split
  · exact h
  · split
    · exact (close_device_spec h).1
    · exact h

theorem claim_hub_port_spec (env : Env) (bus hub port : Nat) {s : State} (h : Tracked s) :
    Tracked (claim_hub_port env bus hub port s) ∧
      (claim_hub_port env bus hub port s).open_fds
        = (if 0 ≤ env.hub_fd ∧ 0 ≤ env.claim_error then [env.hub_fd] else []) := by
  obtain ⟨hu, hneg, hempty, _⟩ := unclaim_hub_port_spec env h
  have key : ∀ s1 : State, Tracked s1 → s1.claimed_fd = -1 → s1.open_fds = [] →
      let s2 : State :=
        if env.hub_fd ≥ 0 then { fd_acquired env.hub_fd s1 with claimed_fd := env.hub_fd }
        else { s1 with claimed_fd := env.hub_fd }
      Tracked (if s2.claimed_fd < 0 then { s2 with claimed_fd := -1 }
        else if env.claim_error < 0 then { sys_close s2.claimed_fd s2 with claimed_fd := -1 }
        else { s2 with claimed_port := to_int port }) ∧
      (if s2.claimed_fd < 0 then { s2 with claimed_fd := -1 }
        else if env.claim_error < 0 then { sys_close s2.claimed_fd s2 with claimed_fd := -1 }
        else { s2 with claimed_port := to_int port }).open_fds
        = (if 0 ≤ env.hub_fd ∧ 0 ≤ env.claim_error then [env.hub_fd] else []) := by
    intro s1 ht hn he
    obtain ⟨h1, h2, h3, h4, h5⟩ := ht
    by_cases c1 : env.hub_fd ≥ 0
    · have c1n : ¬ env.hub_fd < 0 := by omega
      have c1p : 0 ≤ env.hub_fd := c1
      by_cases c2 : env.claim_error < 0
      · have c2n : ¬ 0 ≤ env.claim_error := by omega
        simp [c1, c1n, c2, c2n, Tracked, fd_acquired, sys_close, he, h1, h3, h4]
      · have c2p : 0 ≤ env.claim_error := by omega
        simp only [c1, c1n, c1p, c2, c2p, if_true, if_false, and_self]
        refine ⟨⟨?_, ?_, ?_, ?_, ?_⟩, ?_⟩
        · simpa [fd_acquired] using h1
        · simp [fd_acquired, he, c1p]
        · simpa [fd_acquired] using h3
        · simp [fd_acquired, he]; omega
        · intro hlt; simp at hlt; omega
        · simp [fd_acquired, he]
    · have c1n : env.hub_fd < 0 := by omega
      have c1p : ¬ 0 ≤ env.hub_fd := by omega
      simp [c1, c1n, c1p, Tracked, he, h1, h3, h4]
  unfold claim_hub_port
  by_cases hfd : s.claimed_fd ≥ 0
  · simp only [hfd, if_true]
    exact key _ hu hneg hempty
  · simp only [hfd, if_false]
    have hlt : s.claimed_fd < 0 := by omega
    have hn : ¬ 0 ≤ s.claimed_fd := by omega
    exact key _ h (h.2.2.2.2 hlt) (by rw [h.2.1, if_neg hn])

theorem step_tracked (env : Env) (line : List Char) {s : State} (h : Tracked s) :
    Tracked (step env s line) := by
  unfold step
  split
  · exact h
  · split
    · exact h
    · split
      · exact h
      · split
        · have h1 := (close_device_spec (unclaim_hub_port_spec env h).1).1
          exact h1
        · split
          · exact h
          · exact h
        · split
          · exact h
          · split
            · exact (open_device_vid_pid_spec env _ _ h).1
            · exact (open_device_idx_spec env _ h).1
        · exact (close_device_spec h).1
        · exact reset_device_spec env h
        · split
          · exact h
          · exact (claim_hub_port_spec env _ _ _ h).1
        · exact (unclaim_hub_port_spec env h).1
        · exact h

theorem run_tracked (cmds : List (Env × List Char)) : ∀ {s : State}, Tracked s →
    Tracked (run s cmds) := by
  induction cmds with
  | nil => intro s h; exact h
  | cons c cs ih => intro s h; exact ih (step_tracked c.1 c.2 h)

/-- C5: after every command of every command sequence from the initial state,
the handles opened and not closed are exactly `opened_device` and the
descriptors opened and not closed are exactly `claimed_fd` (none when it is
negative); so at most one of each is held, and never more than one was held at
any moment so far; from such a state `close_device` and `unclaim_hub_port`
leave their global absent and nothing held, and `open_device` (both overloads)
and `claim_hub_port` end holding only what the new acquisition returned,
nothing when it failed. -/
theorem resources_tracked (cmds : List (Env × List Char)) :
    (run State.initial cmds).open_handles = (run State.initial cmds).opened_device.toList ∧
    (run State.initial cmds).open_fds
      = (if 0 ≤ (run State.initial cmds).claimed_fd then [(run State.initial cmds).claimed_fd]
          else []) ∧
    (run State.initial cmds).open_handles.length ≤ 1 ∧
    (run State.initial cmds).open_fds.length ≤ 1 ∧
    (run State.initial cmds).peak_handles ≤ 1 ∧ (run State.initial cmds).peak_fds ≤ 1 ∧
    (close_device (run State.initial cmds)).opened_device = none ∧
    (close_device (run State.initial cmds)).open_handles = [] ∧
    (∀ env, (unclaim_hub_port env (run State.initial cmds)).claimed_fd = -1 ∧
      (unclaim_hub_port env (run State.initial cmds)).open_fds = []) ∧
    (∀ env idx, (open_device_idx env idx (run State.initial cmds)).open_handles
        = (if open_idx_succeeds env idx then [env.open_handle] else []) ∧
      (open_device_idx env idx (run State.initial cmds)).opened_device
        = (if open_idx_succeeds env idx then some env.open_handle else none) ∧
      (open_device_idx env idx (run State.initial cmds)).peak_handles ≤ 1) ∧
    (∀ env v p, (open_device_vid_pid env v p (run State.initial cmds)).open_handles
        = env.vid_pid_handle.toList ∧
      (open_device_vid_pid env v p (run State.initial cmds)).opened_device = env.vid_pid_handle ∧
      (open_device_vid_pid env v p (run State.initial cmds)).peak_handles ≤ 1) ∧
    (∀ env bus hub port, (claim_hub_port env bus hub port (run State.initial cmds)).open_fds
        = (if 0 ≤ env.hub_fd ∧ 0 ≤ env.claim_error then [env.hub_fd] else []) ∧
      (claim_hub_port env bus hub port (run State.initial cmds)).claimed_fd
        = (if 0 ≤ env.hub_fd ∧ 0 ≤ env.claim_error then env.hub_fd else -1) ∧
      (claim_hub_port env bus hub port (run State.initial cmds)).peak_fds ≤ 1) := by
  have h := run_tracked cmds tracked_initial
  generalize run State.initial cmds = s at h
  obtain ⟨h1, h2, h3, h4, h5⟩ := h
  have ht : Tracked s := ⟨h1, h2, h3, h4, h5⟩
  refine ⟨h1, h2, ?_, ?_, h3, h4, (close_device_spec ht).2.1, (close_device_spec ht).2.2.1,
    fun env => ⟨(unclaim_hub_port_spec env ht).2.1, (unclaim_hub_port_spec env ht).2.2.1⟩,
    ?_, ?_, ?_⟩
  · rw [h1]; cases s.opened_device <;> simp
  · rw [h2]; split <;> simp
  · intro env idx
    obtain ⟨t, e⟩ := open_device_idx_spec env idx ht
    refine ⟨e, ?_, t.2.2.1⟩
    have e1 := t.1
    rw [e] at e1
    split at e1 <;> rename_i c <;> simp only [c, if_true, if_false]
    · cases hh : (open_device_idx env idx s).opened_device with
      | none => rw [hh] at e1; simp at e1
      | some y => rw [hh] at e1; simp at e1; rw [e1]
    · cases hh : (open_device_idx env idx s).opened_device with
      | none => rfl
      | some y => rw [hh] at e1; simp at e1
  · intro env v p
    obtain ⟨t, e⟩ := open_device_vid_pid_spec env v p ht
    refine ⟨e, ?_, t.2.2.1⟩
    have e1 := t.1
    rw [e] at e1
    cases hh : (open_device_vid_pid env v p s).opened_device with
    | none => rw [hh] at e1; cases hv : env.vid_pid_handle with
      | none => rfl
      | some z => rw [hv] at e1; simp at e1
    | some y => rw [hh] at e1; cases hv : env.vid_pid_handle with
      | none => rw [hv] at e1; simp at e1
      | some z => rw [hv] at e1; simp at e1; rw [e1]
  · intro env bus hub port
    obtain ⟨t, e⟩ := claim_hub_port_spec env bus hub port ht
    refine ⟨e, ?_, t.2.2.2.1⟩
    have e1 := t.2.1
    have e5 := t.2.2.2.2
    rw [e] at e1
    by_cases c : 0 ≤ env.hub_fd ∧ 0 ≤ env.claim_error
    · simp only [c, and_self, if_true] at e1 ⊢
      by_cases c2 : 0 ≤ (claim_hub_port env bus hub port s).claimed_fd
      · simp only [c2, if_true] at e1
        simpa using e1.symm
      · simp [c2] at e1
    · simp only [c, if_false] at e1 ⊢
      by_cases c2 : 0 ≤ (claim_hub_port env bus hub port s).claimed_fd
      · simp [c2] at e1
      · exact e5 (by omega)


/-! ## Where the code departs from its documentation -/

/-- C1 (code at the failing input): on the line `sc 0x40 1 0 0 2 AABB` the
payload handed to `send_device_control` is `parse_data` of `tokens[5]`, the
`[wLength]` argument `2`, which is empty; `parse_data` of `tokens[6]`, the
`[data]` argument, would be the bytes `AA BB`. -/
theorem send_ctrl_payload_is_length_token :
    tokenize "sc 0x40 1 0 0 2 AABB".data
      = some ["sc".data, "0x40".data, "1".data, "0".data, "0".data, "2".data, "AABB".data] ∧
    send_ctrl_args (fun _ => 0)
        ["sc".data, "0x40".data, "1".data, "0".data, "0".data, "2".data, "AABB".data]
      = .ok (some ⟨0x40, 1, 0, 0, 2, [], 5000⟩) ∧
    parse_data "2".data 2 = .ok [] ∧
    parse_data "AABB".data 2 = .ok [0xAA, 0xBB] := by
  decide

/-- C2 (code at the failing input): on the quoted string `"abc"` with `size`
3, and with any larger `size`, `parse_data` returns the two bytes of `ab`,
not the three of `abc`; with `size` 0 the iterator range is invalid. -/
theorem parse_data_quoted_drops_last :
    parse_data (dquote :: "abc".data ++ [dquote]) 3 = .ok ("ab".data.map char_byte) ∧
    parse_data (dquote :: "abc".data ++ [dquote]) 100 = .ok ("ab".data.map char_byte) ∧
    parse_data (dquote :: "abc".data ++ [dquote]) 3 ≠ .ok ("abc".data.map char_byte) ∧
    parse_data (dquote :: "abc".data ++ [dquote]) 0 = .error .invalid_range := by
  decide

/-- C6 (code at the failing input): the alias `i` that the help text lists
for `info` reaches the "Unsupported command" branch; every other name and
alias of the help text is matched. -/
theorem dispatch_misses_alias_i :
    dispatch "i".data = .unsupported ∧
    ∀ c ∈ ["list".data, "l".data, "open".data, "get-conf".data, "gc".data, "change-conf".data,
        "cc".data, "send-ctrl".data, "sc".data, "reset".data, "close".data, "info".data,
        "claim".data, "unclaim".data, "help".data, "h".data, "exit".data],
      dispatch c ≠ .unsupported := by
  decide

theorem parse_number_no_digit (w out : Nat) (c : Char) (cs : List Char)
    (hd : ¬ (48 ≤ c.toNat ∧ c.toNat ≤ 57)) (hm : c ≠ '-') (hp : c ≠ '+')
    (hsp : isspace c = false) :
    parse_number w out (c :: cs) = 0 := by
  have h0 : c ≠ '0' := by
    rintro rfl
    exact hd (by decide)
  have hbase : ¬ ((c :: cs).length ≥ 2 ∧ (c :: cs)[0]? = some '0' ∧ (c :: cs)[1]? = some 'x') := by
    rintro ⟨_, h, _⟩
    simp at h
    exact h0 h
  have hskip : skip_0x 10 (c :: cs) = c :: cs := by
    cases cs <;> simp [skip_0x]
  have hscan : scan_digits 10 (c :: cs) 0 = 0 := by
    unfold scan_digits digit_value
    rw [if_neg hd]
    by_cases h2 : 97 ≤ c.toNat ∧ c.toNat ≤ 122
    · rw [if_pos h2]
      exact if_neg (by omega)
    · rw [if_neg h2]
      by_cases h3 : 65 ≤ c.toNat ∧ c.toNat ≤ 90
      · rw [if_pos h3]
        exact if_neg (by omega)
      · rw [if_neg h3]
  have key := extract_unsigned .dec out c cs hsp hm hp
  simp only [Basefield.radix, hskip, hscan] at key
  unfold parse_number
  simp only [if_neg hbase, key (by norm_num)]
  simp

/-- C7 (code at the failing input): on the empty string the stream is at its
end before anything is read, nothing is stored, and `parse_number` returns
what the uninitialised `out` held, here 7, not 0. -/
theorem parse_number_empty_is_uninitialised :
    (∀ w out, parse_number w out [] = out % 2 ^ w) ∧ parse_number 32 7 "".data = 7 :=
  ⟨fun _ _ => rfl, by decide⟩

theorem send_device_control_in (h : Nat) (a : ControlArgs)
    (hin : a.bmRequestType &&& LIBUSB_ENDPOINT_DIR_MASK = LIBUSB_ENDPOINT_IN) :
    ∃ t, send_device_control (some h) a = some t ∧ t.buffer.length = a.wLength := by
  refine ⟨_, rfl, ?_⟩
  simp only [hin, if_true, resize, List.length_append, List.length_take, List.length_replicate]
  omega

/-- C9 (code at the failing input): with a device open, the line
`sc 0 0 0 0 8`, an OUT request without `[data]`, reaches
`libusb_control_transfer` with an empty buffer and `wLength` 8; so does
`sc 0 0 0 0 8 AABB`, with `[data]`. -/
theorem send_ctrl_out_buffer_short :
    send_ctrl_transfer (fun _ => 0) (some 1) "sc 0 0 0 0 8".data
      = some ⟨0, 0, 0, 0, [], 8, 5000⟩ ∧
    send_ctrl_transfer (fun _ => 0) (some 1) "sc 0 0 0 0 8 AABB".data
      = some ⟨0, 0, 0, 0, [], 8, 5000⟩ := by
  decide

/-- C10 (code at the failing input): with ten devices attached, the first
`list` writes `Devices Found: 10` and leaves `std::cout` in base 16; a `list`
after it writes `Devices Found: a` for the same device list. -/
theorem list_devices_depends_on_history :
    (run State.initial [(env_ten, "list".data)]).cout_base = .hex ∧
    (list_devices env_ten (run State.initial []).cout_base).map (fun r => r.1.take 18)
      = some "Devices Found: 10\n".data ∧
    (list_devices env_ten (run State.initial [(env_ten, "list".data)]).cout_base).map
        (fun r => r.1.take 17)
      = some "Devices Found: a\n".data := by
  decide

end UsbToolbox
